import Mathlib

/-!
Verification development for geodiff: a heterogeneous, identity-keyed
collection of polymorphic geometry nodes with type-checked retrieval,
tagged serialization, and structural diffing of serialized snapshots.

The data model and collection operations are translated from
`src/main.rs` (`NodeCollection`, `GeometryNode`, `Point3`, `Rectangle`,
`push`, `remove`, `try_get_typed`, the constructors and the demo flow in
`main`).  The external collaborators (the UUID generator, the JSON value
representation with its generic structural differ, and the tagged
serialization scheme) are not part of the repository's own sources; they
are modelled from the specification's description of the interfaces they
must satisfy, as marked on each such definition.

Conventions of the embedding: `f64` field values are modelled as `Rat`
(the program only stores, copies and compares them for equality; it never
performs floating-point arithmetic on them), and the 128-bit UUID is
modelled by its numeric value as a `Nat`.  All functions are total, which
in particular models the absence of panics/aborts in the retrieval and
collection operations.
-/

/-- A 128-bit universally-unique identifier, modelled by its numeric value. -/
abbrev Uuid := Nat

/-- The `Point3` struct of `src/main.rs`: three coordinates plus identifier. -/
structure Point3 where
  x : Rat
  y : Rat
  z : Rat
  uuid : Uuid
deriving DecidableEq

/-- The `Rectangle` struct of `src/main.rs`: an anchor `Point3` owned by value,
width, height, plus identifier. -/
structure Rectangle where
  anchor : Point3
  width : Rat
  height : Rat
  uuid : Uuid
deriving DecidableEq

/-- A value of the `dyn GeometryNode` trait-object type: the closed set of
concrete node variants occurring in the program. -/
inductive GeometryNode where
  | point (p : Point3)
  | rect (r : Rectangle)
deriving DecidableEq

/-- The `uuid` accessor of the `GeometryNode` trait, dispatching to the
concrete variant's `uuid` field. -/
def GeometryNode.uuid : GeometryNode → Uuid
  | .point p => p.uuid
  | .rect r => r.uuid

/-- The `concrete_node::<Point3>` downcast of `src/main.rs`: a safe runtime
type check narrowing a polymorphic node to `Point3`, absent on mismatch. -/
def concrete_node_point3 : GeometryNode → Option Point3
  | .point p => some p
  | _ => none

/-- The `concrete_node::<Rectangle>` downcast of `src/main.rs`. -/
def concrete_node_rectangle : GeometryNode → Option Rectangle
  | .rect r => some r
  | _ => none

/-- The `NodeCollection` struct of `src/main.rs`: a `HashMap<Uuid, Box<dyn
GeometryNode>>`, modelled as an association list with the map operations
below (the real map keeps at most one entry per key; reachable collections
of the model satisfy the same invariant). -/
structure NodeCollection where
  nodes : List (Uuid × GeometryNode)
deriving DecidableEq

/-- The `NodeCollection::new` constructor: the empty collection. -/
def NodeCollection.new : NodeCollection := ⟨[]⟩

/-- Lookup in the association list modelling `HashMap::get`. -/
def lookupNode (k : Uuid) : List (Uuid × GeometryNode) → Option GeometryNode
  | [] => none
  | (k', n) :: rest => if k = k' then some n else lookupNode k rest

/-- Insertion modelling `HashMap::insert`: replaces the entry with the same
key if present, otherwise adds a new entry. -/
def insertNode (k : Uuid) (n : GeometryNode) :
    List (Uuid × GeometryNode) → List (Uuid × GeometryNode)
  | [] => [(k, n)]
  | (k', n') :: rest =>
      if k = k' then (k, n) :: rest else (k', n') :: insertNode k n rest

/-- Deletion modelling `HashMap::remove`'s effect on the map contents. -/
def eraseNode (k : Uuid) :
    List (Uuid × GeometryNode) → List (Uuid × GeometryNode)
  | [] => []
  | (k', n') :: rest => if k = k' then rest else (k', n') :: eraseNode k rest

/-- The `NodeCollection::push` operation of `src/main.rs`:
`self.nodes.insert(node.uuid(), node)`.  Total: it always succeeds. -/
def NodeCollection.push (c : NodeCollection) (n : GeometryNode) : NodeCollection :=
  ⟨insertNode n.uuid n c.nodes⟩

/-- The `NodeCollection::remove` operation of `src/main.rs`:
`self.nodes.remove(&key)`, returning the removed node (or `none`) together
with the collection after removal. -/
def NodeCollection.remove (c : NodeCollection) (k : Uuid) :
    Option GeometryNode × NodeCollection :=
  (lookupNode k c.nodes, ⟨eraseNode k c.nodes⟩)

/-- The `NodeCollection::try_get_typed::<Point3>` operation: map lookup
followed by the safe downcast; total, never a wrong-typed result. -/
def NodeCollection.try_get_typed_point3 (c : NodeCollection) (k : Uuid) :
    Option Point3 :=
  (lookupNode k c.nodes).bind concrete_node_point3

/-- The `NodeCollection::try_get_typed::<Rectangle>` operation. -/
def NodeCollection.try_get_typed_rectangle (c : NodeCollection) (k : Uuid) :
    Option Rectangle :=
  (lookupNode k c.nodes).bind concrete_node_rectangle

/-- Modelled from the spec: the external UUID generator collaborator
(`uuid::Uuid::new_v4`, not part of this repository's sources) "must produce
universally-unique, serializable, equality-comparable values".  It is
modelled as a counter state: each call returns a value never returned
before and advances the state. -/
def freshUuid (g : Nat) : Uuid × Nat := (g, g + 1)

/-- The `Point3::new` constructor of `src/main.rs`: all coordinates zero and
a freshly generated identifier (one generator call), threading the
generator state. -/
def Point3.new (g : Nat) : Point3 × Nat :=
  let u := freshUuid g
  ({ x := 0, y := 0, z := 0, uuid := u.1 }, u.2)

/-- The `Rectangle::new` constructor of `src/main.rs`: the anchor is a fresh
zeroed `Point3` (built by `Point3::new`, hence with its own freshly
generated identifier), width and height zero, and a freshly generated
identifier for the rectangle itself. -/
def Rectangle.new (g : Nat) : Rectangle × Nat :=
  let a := Point3.new g
  let u := freshUuid a.2
  ({ anchor := a.1, width := 0, height := 0, uuid := u.1 }, u.2)

/-- Keys of the serialized JSON tree: either a struct field name or a node
identifier used as a map key.  The real format renders identifiers as
fixed-width hyphenated strings, which never coincide with the field names
in use, so the two kinds of keys are kept apart by constructor. -/
inductive JKey where
  | fld (s : String)
  | id (u : Uuid)
deriving DecidableEq

mutual
/-- Modelled from the spec: the JSON-compatible tree values produced by
serializing a node collection (objects and the scalars this program emits;
its snapshots contain no arrays, booleans or nulls). -/
inductive Json where
  | num (q : Rat)
  | str (s : String)
  | uid (u : Uuid)
  | obj (fs : JObj)

/-- The (order-preserving) field list of a JSON object. -/
inductive JObj where
  | nil
  | cons (k : JKey) (v : Json) (rest : JObj)
end

mutual
/-- Decidable structural equality on JSON values. -/
def Json.decEq : (a b : Json) → Decidable (a = b)
  | .num a, .num b =>
      if h : a = b then .isTrue (congrArg Json.num h)
      else .isFalse (fun hh => h (Json.num.inj hh))
  | .str a, .str b =>
      if h : a = b then .isTrue (congrArg Json.str h)
      else .isFalse (fun hh => h (Json.str.inj hh))
  | .uid a, .uid b =>
      if h : a = b then .isTrue (congrArg Json.uid h)
      else .isFalse (fun hh => h (Json.uid.inj hh))
  | .obj a, .obj b =>
      match JObj.decEq a b with
      | .isTrue h => .isTrue (congrArg Json.obj h)
      | .isFalse h => .isFalse (fun hh => h (Json.obj.inj hh))
  | .num _, .str _ => .isFalse (fun h => Json.noConfusion h)
  | .num _, .uid _ => .isFalse (fun h => Json.noConfusion h)
  | .num _, .obj _ => .isFalse (fun h => Json.noConfusion h)
  | .str _, .num _ => .isFalse (fun h => Json.noConfusion h)
  | .str _, .uid _ => .isFalse (fun h => Json.noConfusion h)
  | .str _, .obj _ => .isFalse (fun h => Json.noConfusion h)
  | .uid _, .num _ => .isFalse (fun h => Json.noConfusion h)
  | .uid _, .str _ => .isFalse (fun h => Json.noConfusion h)
  | .uid _, .obj _ => .isFalse (fun h => Json.noConfusion h)
  | .obj _, .num _ => .isFalse (fun h => Json.noConfusion h)
  | .obj _, .str _ => .isFalse (fun h => Json.noConfusion h)
  | .obj _, .uid _ => .isFalse (fun h => Json.noConfusion h)

/-- Decidable structural equality on JSON object field lists. -/
def JObj.decEq : (a b : JObj) → Decidable (a = b)
  | .nil, .nil => .isTrue rfl
  | .cons k v r, .cons k' v' r' =>
      if hk : k = k' then
        match Json.decEq v v', JObj.decEq r r' with
        | .isTrue hv, .isTrue hr => .isTrue (by rw [hk, hv, hr])
        | .isFalse hv, _ => .isFalse (fun hh => hv (JObj.cons.inj hh).2.1)
        | _, .isFalse hr => .isFalse (fun hh => hr (JObj.cons.inj hh).2.2)
      else .isFalse (fun hh => hk (JObj.cons.inj hh).1)
  | .nil, .cons _ _ _ => .isFalse (fun h => JObj.noConfusion h)
  | .cons _ _ _, .nil => .isFalse (fun h => JObj.noConfusion h)
end

instance : DecidableEq Json := Json.decEq

instance : DecidableEq JObj := JObj.decEq

/-- Lookup of a key in a JSON object's field list (first occurrence). -/
def lookupJ (k : JKey) : JObj → Option Json
  | .nil => none
  | .cons k' v rest => if k = k' then some v else lookupJ k rest

/-- A JSON value is a leaf iff it is a scalar (not an object). -/
def isLeaf : Json → Bool
  | .obj _ => false
  | _ => true

/-- Membership of an entry in a JSON object's field list. -/
def EntryMem (k : JKey) (v : Json) : JObj → Prop
  | .nil => False
  | .cons k' v' rest => (k = k' ∧ v = v') ∨ EntryMem k v rest

/-- Key uniqueness of a field list. -/
def nodupKeysB : JObj → Bool
  | .nil => true
  | .cons k _ rest => !(lookupJ k rest).isSome && nodupKeysB rest

mutual
/-- Well-formedness of a JSON value: every object has unique keys (the real
map representation cannot hold duplicate keys). -/
def wfJson : Json → Bool
  | .num _ => true
  | .str _ => true
  | .uid _ => true
  | .obj fs => nodupKeysB fs && wfEntries fs

/-- Well-formedness of every value of a field list. -/
def wfEntries : JObj → Bool
  | .nil => true
  | .cons _ v rest => wfJson v && wfEntries rest
end

/-- One reported diff event at a tree path, as in spec section 3: a Change
Record is Added, Removed, Unchanged or Modified. -/
inductive Change where
  | added (path : List JKey) (v : Json)
  | removed (path : List JKey) (v : Json)
  | unchanged (path : List JKey) (v : Json)
  | modified (path : List JKey) (vold vnew : Json)
deriving DecidableEq

/-- Tests whether a change record is a Modified record. -/
def Change.isModified : Change → Bool
  | .modified _ _ _ => true
  | _ => false

/-- Records for the keys of the walked list `l` that are absent from the
object `r`: each such fully-absent subtree emits one Removed record. -/
def removedEntries (p : List JKey) (r : JObj) : JObj → List Change
  | .nil => []
  | .cons k v rest =>
      (if (lookupJ k r).isSome then [] else [Change.removed (p ++ [k]) v])
        ++ removedEntries p r rest

mutual
/-- Modelled from the spec: the generic structural differ collaborator (the
`treediff` crate, not part of this repository's sources), following spec
section 4.3: at each level corresponding keys are compared; a key only in
"before" is Removed, only in "after" is Added; two composites are recursed
into without emitting a record themselves; two leaf scalars are Unchanged
if equal and Modified(old, new) otherwise. -/
def diffJ (p : List JKey) : Json → Json → List Change
  | .obj l, .obj r => diffEntries p l r ++ removedEntries p r l
  | a, b => if a = b then [Change.unchanged p a] else [Change.modified p a b]

/-- Walks the "after" object's entries in order, diffing against the
corresponding entry of the "before" object `l`. -/
def diffEntries (p : List JKey) (l : JObj) : JObj → List Change
  | .nil => []
  | .cons k rv rest =>
      (match lookupJ k l with
       | some lv => diffJ (p ++ [k]) lv rv
       | none => [Change.added (p ++ [k]) rv])
        ++ diffEntries p l rest
end

mutual
/-- All leaves of a JSON value, with their paths, in traversal order. -/
def leaves (p : List JKey) : Json → List (List JKey × Json)
  | .obj fs => leavesEntries p fs
  | v => [(p, v)]

/-- All leaves below the entries of a field list. -/
def leavesEntries (p : List JKey) : JObj → List (List JKey × Json)
  | .nil => []
  | .cons k v rest => leaves (p ++ [k]) v ++ leavesEntries p rest
end

/-- Reading the value at a path of a JSON tree. -/
def getPath : Json → List JKey → Option Json
  | j, [] => some j
  | .obj fs, k :: p =>
      match lookupJ k fs with
      | some v => getPath v p
      | none => none
  | _, _ :: _ => none

mutual
/-- Replacing the value at a path of a JSON tree (identity when the path
does not exist). -/
def setPath : Json → List JKey → Json → Json
  | _, [], w => w
  | .obj fs, k :: p, w => .obj (setEntry fs k p w)
  | j, _ :: _, _ => j

/-- Replaces, inside the first entry with key `k`, the value at path `p`. -/
def setEntry : JObj → JKey → List JKey → Json → JObj
  | .nil, _, _, _ => .nil
  | .cons k' v rest, k, p, w =>
      if k = k' then .cons k' (setPath v p w) rest
      else .cons k' v (setEntry rest k p w)
end

/-- The serialized field list of a `Point3`, field order and names as in the
struct declaration of `src/main.rs`. -/
def serPoint3Fields (p : Point3) : JObj :=
  .cons (.fld "x") (.num p.x) (.cons (.fld "y") (.num p.y)
    (.cons (.fld "z") (.num p.z) (.cons (.fld "uuid") (.uid p.uuid) .nil)))

/-- Modelled from the spec: the tagged serialization of one node through the
polymorphic interface (the `typetag`/`serde` collaborators): "each node's
tagged representation carries a discriminator field naming the concrete
variant plus the variant's own fields".  The discriminator field is named
`geometry_node` with the concrete type name as value, per the trait
attribute in `src/main.rs`; a `Rectangle`'s anchor is a plain owned
`Point3` and is serialized untagged. -/
def serNode : GeometryNode → Json
  | .point p => .obj (.cons (.fld "geometry_node") (.str "Point3") (serPoint3Fields p))
  | .rect r => .obj (.cons (.fld "geometry_node") (.str "Rectangle")
      (.cons (.fld "anchor") (.obj (serPoint3Fields r.anchor))
        (.cons (.fld "width") (.num r.width)
          (.cons (.fld "height") (.num r.height)
            (.cons (.fld "uuid") (.uid r.uuid) .nil)))))

/-- Entries sorted by identifier: the real snapshot map stores keys in
sorted order (identifiers render as fixed-width strings, whose
lexicographic order is their numeric order), making the snapshot a
canonical function of the map contents. -/
def sortNodes (l : List (Uuid × GeometryNode)) : List (Uuid × GeometryNode) :=
  l.insertionSort (fun a b => a.1 ≤ b.1)

instance : IsTotal (Uuid × GeometryNode) (fun a b => a.1 ≤ b.1) :=
  ⟨fun a b => Nat.le_total a.1 b.1⟩

instance : IsTrans (Uuid × GeometryNode) (fun a b => a.1 ≤ b.1) :=
  ⟨fun _ _ _ h1 h2 => Nat.le_trans h1 h2⟩

instance : IsAntisymm (Uuid × GeometryNode) (fun a b => a.1 < b.1) :=
  ⟨fun _ _ h1 h2 => absurd (Nat.lt_trans h1 h2) (Nat.lt_irrefl _)⟩

/-- Builds the JSON object of a snapshot from serialized entries. -/
def objOfNodes : List (Uuid × GeometryNode) → JObj
  | [] => .nil
  | (k, n) :: rest => .cons (.id k) (serNode n) (objOfNodes rest)

/-- Modelled from the spec: whole-collection serialization, which "produces
a Serialized Snapshot containing, for every stored node, its identifier as
the entry key and its tagged representation as the value". -/
def serializeCollection (c : NodeCollection) : Json :=
  .obj (objOfNodes (sortNodes c.nodes))

/-- The deserialization error taxonomy of spec section 7 relevant to
reconstruction: an unrecognized discriminator, or recognized tag with
missing/mistyped fields. -/
inductive DeserializeError where
  | unknownVariant (tag : String)
  | malformedFields
deriving DecidableEq

/-- Requires a field to be present, failing with `MalformedFields`. -/
def reqField (fs : JObj) (name : String) : Except DeserializeError Json :=
  match lookupJ (.fld name) fs with
  | some v => .ok v
  | none => .error .malformedFields

/-- Requires a JSON value to be a number. -/
def asNum : Json → Except DeserializeError Rat
  | .num q => .ok q
  | _ => .error .malformedFields

/-- Requires a JSON value to be an identifier. -/
def asUid : Json → Except DeserializeError Uuid
  | .uid u => .ok u
  | _ => .error .malformedFields

/-- Requires a JSON value to be an object. -/
def asObj : Json → Except DeserializeError JObj
  | .obj fs => .ok fs
  | _ => .error .malformedFields

/-- Field-wise reconstruction of a `Point3` from an object's field list. -/
def deserPoint3Fields (fs : JObj) : Except DeserializeError Point3 := do
  let x ← reqField fs "x" >>= asNum
  let y ← reqField fs "y" >>= asNum
  let z ← reqField fs "z" >>= asNum
  let u ← reqField fs "uuid" >>= asUid
  pure { x := x, y := y, z := z, uuid := u }

/-- Field-wise reconstruction of a `Rectangle` from an object's field list. -/
def deserRectangleFields (fs : JObj) : Except DeserializeError Rectangle := do
  let a ← reqField fs "anchor" >>= asObj
  let anchor ← deserPoint3Fields a
  let w ← reqField fs "width" >>= asNum
  let h ← reqField fs "height" >>= asNum
  let u ← reqField fs "uuid" >>= asUid
  pure { anchor := anchor, width := w, height := h, uuid := u }

/-- The discriminator of a serialized node, when present. -/
def tagOf : Json → Option Json
  | .obj fs => lookupJ (.fld "geometry_node") fs
  | _ => none

/-- Modelled from the spec: tagged deserialization of one node, "tag-
dispatched to the correct concrete constructor"; an unregistered tag fails
with `UnknownVariant`, a recognized tag with missing or mistyped fields
fails with `MalformedFields`. -/
def deserNode : Json → Except DeserializeError GeometryNode
  | .obj fs =>
      match lookupJ (.fld "geometry_node") fs with
      | some (.str "Point3") => (deserPoint3Fields fs).map .point
      | some (.str "Rectangle") => (deserRectangleFields fs).map .rect
      | some (.str t) => .error (.unknownVariant t)
      | some _ => .error .malformedFields
      | none => .error .malformedFields
  | _ => .error .malformedFields

/-- Deserialization of one snapshot entry: the key must be an identifier
and the value a deserializable tagged node. -/
def deserEntry (k : JKey) (v : Json) : Except DeserializeError (Uuid × GeometryNode) :=
  match k with
  | .id u => (deserNode v).map (fun n => (u, n))
  | .fld _ => .error .malformedFields

/-- Left-to-right deserialization of all entries, stopping at the first
error (no partial result is produced). -/
def deserEntries : JObj → Except DeserializeError (List (Uuid × GeometryNode))
  | .nil => .ok []
  | .cons k v rest =>
      match deserEntry k v with
      | .error e => .error e
      | .ok p => (deserEntries rest).map (p :: ·)

/-- Modelled from the spec: whole-collection deserialization, which
"reconstructs a Node Collection with one concrete node per entry" and
"fails the whole operation with the first encountered `UnknownVariant` /
`MalformedFields` error (no partial collection is returned)". -/
def deserializeCollection : Json → Except DeserializeError NodeCollection
  | .obj fs => (deserEntries fs).map NodeCollection.mk
  | _ => .error .malformedFields

/-- The first deserialization failure among the entries, written directly
after the spec's words: the error of the first entry that fails, if any.
Used to state that whole-collection deserialization fails with exactly the
first encountered error. -/
def specFirstDeserializeError : JObj → Option DeserializeError
  | .nil => none
  | .cons k v rest =>
      match deserEntry k v with
      | .error e => some e
      | .ok _ => specFirstDeserializeError rest

/-- The entries of a JSON object's field list as a list. -/
def toListJ : JObj → List (JKey × Json)
  | .nil => []
  | .cons k v rest => (k, v) :: toListJ rest

/-- Collections reachable from the empty collection by `push` and `remove`
operations. -/
inductive Reachable : NodeCollection → Prop where
  | new : Reachable NodeCollection.new
  | push {c : NodeCollection} (n : GeometryNode) :
      Reachable c → Reachable (c.push n)
  | remove {c : NodeCollection} (k : Uuid) :
      Reachable c → Reachable (c.remove k).2

/-- The key/identity invariant of spec section 3: every stored entry's map
key equals the node's own identity accessor value. -/
def keyIdentity (c : NodeCollection) : Prop :=
  ∀ e ∈ c.nodes, (e.2 : GeometryNode).uuid = e.1

/-- Key uniqueness of a collection, the invariant the real `HashMap`
maintains by construction. -/
abbrev NodupKeys (c : NodeCollection) : Prop :=
  (c.nodes.map Prod.fst).Nodup

/-- The rectangle of the demo flow in `main`: freshly constructed from
generator state 0, then width set to 10.0 and height to 20.0 through the
mutating accessors. -/
def mainRect : Rectangle :=
  { (Rectangle.new 0).1 with width := 10, height := 20 }

/-- The identifier of the demo rectangle (`let id = rect.uuid()`). -/
def rectId : Uuid := mainRect.uuid

/-- The point of the demo flow in `main`, constructed after the rectangle. -/
def mainPt : Point3 := (Point3.new (Rectangle.new 0).2).1

/-- The identifier of the demo point (`let pt_id = pt.uuid()`). -/
def ptId : Uuid := mainPt.uuid

/-- The demo collection after both pushes in `main`. -/
def mainNodes : NodeCollection :=
  (NodeCollection.new.push (.rect mainRect)).push (.point mainPt)

/-- The anchor reassignment of `main`: `try_get_typed_mut::<Rectangle>`
followed by `rect.anchor = pt`, writing the updated rectangle back; a no-op
when the key is absent or not a rectangle. -/
def NodeCollection.setRectAnchor (c : NodeCollection) (k : Uuid) (p : Point3) :
    NodeCollection :=
  match c.try_get_typed_rectangle k with
  | some r => ⟨insertNode k (.rect { r with anchor := p }) c.nodes⟩
  | none => c

/-- The demo collection after `rect.anchor = pt` (the "optimized" state). -/
def mainNodesOptimized : NodeCollection :=
  mainNodes.setRectAnchor rectId mainPt

/-! Lemmas about the collection operations. -/

theorem lookupNode_insertNode_self (k : Uuid) (n : GeometryNode) :
    ∀ l, lookupNode k (insertNode k n l) = some n
  | [] => by simp [insertNode, lookupNode]
  | (k', n') :: rest => by
      by_cases h : k = k' <;>
        simp [insertNode, lookupNode, h, lookupNode_insertNode_self k n rest]

theorem lookupNode_insertNode_ne (k u : Uuid) (n : GeometryNode) (hu : u ≠ k) :
    ∀ l, lookupNode u (insertNode k n l) = lookupNode u l
  | [] => by simp [insertNode, lookupNode, hu]
  | (k', n') :: rest => by
      by_cases h : k = k' <;>
        simp [insertNode, lookupNode, h, hu, lookupNode_insertNode_ne k u n hu rest]
      subst h
      simp [if_neg hu]

theorem insertNode_length (k : Uuid) (n : GeometryNode) :
    ∀ l, (lookupNode k l).isSome → (insertNode k n l).length = l.length
  | [] => by simp [lookupNode]
  | (k', n') :: rest => by
      intro hs
      by_cases h : k = k'
      · simp [insertNode, h]
      · have hs' : (lookupNode k rest).isSome := by simpa [lookupNode, h] using hs
        simp [insertNode, h, insertNode_length k n rest hs']

theorem mem_insertNode (e : Uuid × GeometryNode) (k : Uuid) (n : GeometryNode) :
    ∀ l, e ∈ insertNode k n l → e = (k, n) ∨ e ∈ l
  | [] => by simp [insertNode]
  | (k', n') :: rest => by
      by_cases h : k = k' <;> simp [insertNode, h]
      · tauto
      · intro hmem
        rcases hmem with h1 | h2
        · tauto
        · rcases mem_insertNode e k n rest h2 with h3 | h4 <;> tauto

theorem mem_eraseNode (e : Uuid × GeometryNode) (k : Uuid) :
    ∀ l, e ∈ eraseNode k l → e ∈ l
  | [] => by simp [eraseNode]
  | (k', n') :: rest => by
      by_cases h : k = k' <;> simp [eraseNode, h]
      · tauto
      · intro hmem
        rcases hmem with h1 | h2
        · tauto
        · exact Or.inr (mem_eraseNode e k rest h2)

/-- C2: `try_get_typed::<T>(id)` returns a reference exactly when the node
stored at `id` is concretely of type `T`; if the key is absent or the
stored node has a different concrete type it returns an absent result, and
never a wrong-typed reference.  All operations are total functions, which
models the absence of panics and aborts. -/
theorem try_get_typed_sound (c : NodeCollection) (k : Uuid) :
    (∀ p : Point3, c.try_get_typed_point3 k = some p ↔
        lookupNode k c.nodes = some (GeometryNode.point p)) ∧
    (∀ r : Rectangle, c.try_get_typed_rectangle k = some r ↔
        lookupNode k c.nodes = some (GeometryNode.rect r)) ∧
    (lookupNode k c.nodes = none →
        c.try_get_typed_point3 k = none ∧ c.try_get_typed_rectangle k = none) ∧
    (∀ r : Rectangle, lookupNode k c.nodes = some (GeometryNode.rect r) →
        c.try_get_typed_point3 k = none) ∧
    (∀ p : Point3, lookupNode k c.nodes = some (GeometryNode.point p) →
        c.try_get_typed_rectangle k = none) := by
  rcases h : lookupNode k c.nodes with _ | n
  · simp [NodeCollection.try_get_typed_point3, NodeCollection.try_get_typed_rectangle, h]
  · cases n <;>
      simp [NodeCollection.try_get_typed_point3, NodeCollection.try_get_typed_rectangle,
        h, concrete_node_point3, concrete_node_rectangle]

/-- Witness for C2 at a concrete collection holding a rectangle under key 5:
the point-typed retrieval is absent and the rectangle-typed retrieval
returns the stored rectangle. -/
theorem try_get_typed_sound_witness :
    NodeCollection.try_get_typed_point3
        ⟨[(5, GeometryNode.rect ⟨⟨0, 0, 0, 9⟩, 3, 4, 5⟩)]⟩ 5 = none ∧
    NodeCollection.try_get_typed_rectangle
        ⟨[(5, GeometryNode.rect ⟨⟨0, 0, 0, 9⟩, 3, 4, 5⟩)]⟩ 5 = some ⟨⟨0, 0, 0, 9⟩, 3, 4, 5⟩ :=
  ⟨(try_get_typed_sound ⟨[(5, GeometryNode.rect ⟨⟨0, 0, 0, 9⟩, 3, 4, 5⟩)]⟩ 5).2.2.2.1
      ⟨⟨0, 0, 0, 9⟩, 3, 4, 5⟩ (by decide),
   ((try_get_typed_sound ⟨[(5, GeometryNode.rect ⟨⟨0, 0, 0, 9⟩, 3, 4, 5⟩)]⟩ 5).2.1
      ⟨⟨0, 0, 0, 9⟩, 3, 4, 5⟩).mpr (by decide)⟩

/-- C3: pushing a node whose identifier matches an existing entry replaces
it entirely: the collection's size is unchanged, the lookup at that
identifier observes exactly the new node, and all other entries are
untouched.  `push` is a total function: it always succeeds. -/
theorem push_overwrite (c : NodeCollection) (n old : GeometryNode)
    (hold : lookupNode n.uuid c.nodes = some old) :
    (c.push n).nodes.length = c.nodes.length ∧
    lookupNode n.uuid (c.push n).nodes = some n ∧
    ∀ u : Uuid, u ≠ n.uuid → lookupNode u (c.push n).nodes = lookupNode u c.nodes := by
  refine ⟨?_, ?_, ?_⟩
  · exact insertNode_length n.uuid n c.nodes (by simp [hold])
  · exact lookupNode_insertNode_self n.uuid n c.nodes
  · intro u hu
    exact lookupNode_insertNode_ne n.uuid u n hu c.nodes

/-- Witness for C3: overwriting the point stored under key 7 with a
rectangle carrying the same identifier keeps the size at one and the
lookup then observes only the rectangle. -/
theorem push_overwrite_witness :
    (NodeCollection.push ⟨[(7, GeometryNode.point ⟨1, 2, 3, 7⟩)]⟩
        (GeometryNode.rect ⟨⟨0, 0, 0, 4⟩, 8, 9, 7⟩)).nodes.length = 1 ∧
    lookupNode 7 (NodeCollection.push ⟨[(7, GeometryNode.point ⟨1, 2, 3, 7⟩)]⟩
        (GeometryNode.rect ⟨⟨0, 0, 0, 4⟩, 8, 9, 7⟩)).nodes =
      some (GeometryNode.rect ⟨⟨0, 0, 0, 4⟩, 8, 9, 7⟩) := by
  have h := push_overwrite ⟨[(7, GeometryNode.point ⟨1, 2, 3, 7⟩)]⟩
    (GeometryNode.rect ⟨⟨0, 0, 0, 4⟩, 8, 9, 7⟩) (GeometryNode.point ⟨1, 2, 3, 7⟩) (by decide)
  exact ⟨h.1, h.2.1⟩

/-- C4: in every collection reachable from the empty collection by `push`
and `remove`, every stored entry's key equals the stored node's own `uuid`
accessor value; the invariant is preserved by every operation, as the
induction over reachability shows. -/
theorem reachable_key_identity (c : NodeCollection) (h : Reachable c) :
    keyIdentity c := by
  induction h with
  | new => intro e he; simp [NodeCollection.new] at he
  | push n _ ih =>
      intro e he
      rcases mem_insertNode e n.uuid n _ he with h1 | h2
      · subst h1; rfl
      · exact ih e h2
  | remove k _ ih =>
      intro e he
      exact ih e (mem_eraseNode e k _ he)

/-- Witness for C4: the invariant holds at the concrete reachable collection
obtained by pushing one point and removing an absent key. -/
theorem reachable_key_identity_witness :
    keyIdentity ((NodeCollection.new.push (GeometryNode.point ⟨1, 2, 3, 7⟩)).remove 9).2 :=
  reachable_key_identity _
    (Reachable.remove 9 (Reachable.push (GeometryNode.point ⟨1, 2, 3, 7⟩) Reachable.new))

/-- C8: each concrete constructor produces a zeroed instance with a freshly
generated identifier.  `Point3::new` advances the generator exactly once;
`Rectangle::new` constructs two nodes (its anchor `Point3`, built by
`Point3::new`, and the rectangle itself) and advances the generator exactly
twice — one call per constructed node — giving the two nodes distinct fresh
identifiers. -/
theorem constructors_zeroed_fresh (g : Nat) :
    (Point3.new g).1.x = 0 ∧ (Point3.new g).1.y = 0 ∧ (Point3.new g).1.z = 0 ∧
    (Point3.new g).1.uuid = g ∧ (Point3.new g).2 = g + 1 ∧
    (Rectangle.new g).1.width = 0 ∧ (Rectangle.new g).1.height = 0 ∧
    (Rectangle.new g).1.anchor = (Point3.new g).1 ∧
    (Rectangle.new g).1.anchor.x = 0 ∧ (Rectangle.new g).1.anchor.y = 0 ∧
    (Rectangle.new g).1.anchor.z = 0 ∧ (Rectangle.new g).1.anchor.uuid = g ∧
    (Rectangle.new g).1.uuid = g + 1 ∧
    (Rectangle.new g).1.uuid ≠ (Rectangle.new g).1.anchor.uuid ∧
    (Rectangle.new g).2 = g + 2 := by
  refine ⟨rfl, rfl, rfl, rfl, rfl, rfl, rfl, rfl, rfl, rfl, rfl, rfl, rfl, ?_, rfl⟩
  intro h
  simp [Rectangle.new, Point3.new, freshUuid] at h

/-- C10: assigning an existing `Point3` as a rectangle's anchor copies the
point's identifier verbatim — no fresh identifier is generated on copy —
so in the demo flow the serialized snapshot holds the point's identifier
both as a top-level map key and inside the rectangle's anchor fields. -/
theorem anchor_assignment_copies_uuid :
    (∀ (r : Rectangle) (p : Point3), ({ r with anchor := p } : Rectangle).anchor.uuid = p.uuid) ∧
    (mainNodesOptimized.try_get_typed_rectangle rectId).map (fun r => r.anchor.uuid) = some ptId ∧
    getPath (serializeCollection mainNodesOptimized) [JKey.id ptId]
      = some (serNode (GeometryNode.point mainPt)) ∧
    getPath (serializeCollection mainNodesOptimized) [JKey.id rectId, JKey.fld "anchor", JKey.fld "uuid"]
      = some (Json.uid ptId) :=
  ⟨fun _ p => rfl, by decide, by decide, by decide⟩

/-! Lemmas about JSON objects, leaves and the differ. -/

theorem lookupJ_entryMem (k : JKey) (v : Json) :
    ∀ fs : JObj, lookupJ k fs = some v → EntryMem k v fs
  | .nil => by intro h; simp [lookupJ] at h
  | .cons k' v' rest => by
      intro hl
      show (k = k' ∧ v = v') ∨ EntryMem k v rest
      by_cases h : k = k'
      · rw [lookupJ, if_pos h] at hl
        exact Or.inl ⟨h, (Option.some.inj hl).symm⟩
      · rw [lookupJ, if_neg h] at hl
        exact Or.inr (lookupJ_entryMem k v rest hl)

theorem entryMem_lookupJ_isSome (k : JKey) (v : Json) :
    ∀ fs : JObj, EntryMem k v fs → (lookupJ k fs).isSome = true
  | .nil => fun h => (h : False).elim
  | .cons k' v' rest => by
      intro hm
      have hm' : (k = k' ∧ v = v') ∨ EntryMem k v rest := hm
      by_cases h : k = k'
      · rw [lookupJ, if_pos h]; rfl
      · rw [lookupJ, if_neg h]
        rcases hm' with ⟨hk, _⟩ | hm'
        · exact absurd hk h
        · exact entryMem_lookupJ_isSome k v rest hm'

theorem nodup_entryMem_lookupJ (k : JKey) (v : Json) :
    ∀ fs : JObj, nodupKeysB fs = true → EntryMem k v fs → lookupJ k fs = some v
  | .nil => fun _ h => (h : False).elim
  | .cons k' v' rest => by
      intro hn hm
      have hn' : (!(lookupJ k' rest).isSome && nodupKeysB rest) = true := hn
      rw [Bool.and_eq_true] at hn'
      have hm' : (k = k' ∧ v = v') ∨ EntryMem k v rest := hm
      rcases hm' with ⟨hk, hv⟩ | hm'
      · rw [lookupJ, if_pos hk, hv]
      · by_cases h : k = k'
        · subst h
          have hs := entryMem_lookupJ_isSome k v rest hm'
          have hfalse := hn'.1
          rw [hs] at hfalse
          simp at hfalse
        · rw [lookupJ, if_neg h]
          exact nodup_entryMem_lookupJ k v rest hn'.2 hm'

theorem wfEntries_entryMem (k : JKey) (v : Json) :
    ∀ fs : JObj, wfEntries fs = true → EntryMem k v fs → wfJson v = true
  | .nil => fun _ h => (h : False).elim
  | .cons k' v' rest => by
      intro hw hm
      have hw' : (wfJson v' && wfEntries rest) = true := hw
      rw [Bool.and_eq_true] at hw'
      have hm' : (k = k' ∧ v = v') ∨ EntryMem k v rest := hm
      rcases hm' with ⟨_, hv⟩ | hm'
      · rw [hv]; exact hw'.1
      · exact wfEntries_entryMem k v rest hw'.2 hm' 

theorem removedEntries_eq_nil :
    ∀ (l : JObj) (p : List JKey) (r : JObj),
      (∀ k v, EntryMem k v l → (lookupJ k r).isSome = true) →
      removedEntries p r l = []
  | .nil, p, r, _ => by simp [removedEntries]
  | .cons k v rest, p, r, h => by
      have hk : (lookupJ k r).isSome = true := h k v (Or.inl ⟨rfl, rfl⟩)
      simp [removedEntries, hk,
        removedEntries_eq_nil rest p r (fun a b hm => h a b (Or.inr hm))]

mutual
theorem leaves_path_shape :
    ∀ (j : Json) (q : List JKey) (e : List JKey × Json),
      e ∈ leaves q j → ∃ suf, e.1 = q ++ suf
  | .num a, q, e => by
      intro h; simp [leaves] at h; exact ⟨[], by simp [h]⟩
  | .str s, q, e => by
      intro h; simp [leaves] at h; exact ⟨[], by simp [h]⟩
  | .uid u, q, e => by
      intro h; simp [leaves] at h; exact ⟨[], by simp [h]⟩
  | .obj fs, q, e => by
      intro h
      simp [leaves] at h
      obtain ⟨k, suf, h1, _⟩ := leavesEntries_path_shape fs q e h
      exact ⟨k :: suf, h1⟩

theorem leavesEntries_path_shape :
    ∀ (fs : JObj) (q : List JKey) (e : List JKey × Json),
      e ∈ leavesEntries q fs →
      ∃ k suf, e.1 = q ++ (k :: suf) ∧ (lookupJ k fs).isSome = true
  | .nil, q, e => by simp [leavesEntries]
  | .cons k v rest, q, e => by
      intro h
      simp [leavesEntries] at h
      rcases h with h | h
      · obtain ⟨suf, hs⟩ := leaves_path_shape v (q ++ [k]) e h
        exact ⟨k, suf, by simp [hs], by simp [lookupJ]⟩
      · obtain ⟨k', suf, h1, h2⟩ := leavesEntries_path_shape rest q e h
        refine ⟨k', suf, h1, ?_⟩
        by_cases hk : k' = k <;> simp [lookupJ, hk, h2]
end

mutual
theorem leaves_isLeaf :
    ∀ (j : Json) (q : List JKey) (e : List JKey × Json),
      e ∈ leaves q j → isLeaf e.2 = true
  | .num a, q, e => by intro h; simp [leaves] at h; simp [h, isLeaf]
  | .str s, q, e => by intro h; simp [leaves] at h; simp [h, isLeaf]
  | .uid u, q, e => by intro h; simp [leaves] at h; simp [h, isLeaf]
  | .obj fs, q, e => by
      intro h
      simp [leaves] at h
      exact leavesEntries_isLeaf fs q e h

theorem leavesEntries_isLeaf :
    ∀ (fs : JObj) (q : List JKey) (e : List JKey × Json),
      e ∈ leavesEntries q fs → isLeaf e.2 = true
  | .nil, q, e => by simp [leavesEntries]
  | .cons k v rest, q, e => by
      intro h
      simp [leavesEntries] at h
      rcases h with h | h
      · exact leaves_isLeaf v (q ++ [k]) e h
      · exact leavesEntries_isLeaf rest q e h
end

mutual
theorem diffJ_self :
    ∀ (j : Json) (q : List JKey), wfJson j = true →
      diffJ q j j = (leaves q j).map (fun e => Change.unchanged e.1 e.2)
  | .num a, q, _ => by simp [diffJ, leaves]
  | .str s, q, _ => by simp [diffJ, leaves]
  | .uid u, q, _ => by simp [diffJ, leaves]
  | .obj fs, q, h => by
      simp [wfJson] at h
      have hsub : ∀ k v, EntryMem k v fs → lookupJ k fs = some v ∧ wfJson v = true :=
        fun k v hm =>
          ⟨nodup_entryMem_lookupJ k v fs h.1 hm, wfEntries_entryMem k v fs h.2 hm⟩
      have hrem : removedEntries q fs fs = [] :=
        removedEntries_eq_nil fs q fs
          (fun k v hm => entryMem_lookupJ_isSome k v fs hm)
      simp [diffJ, leaves, hrem, diffEntries_self fs fs q hsub]

theorem diffEntries_self :
    ∀ (rest fs : JObj) (q : List JKey),
      (∀ k v, EntryMem k v rest → lookupJ k fs = some v ∧ wfJson v = true) →
      diffEntries q fs rest = (leavesEntries q rest).map (fun e => Change.unchanged e.1 e.2)
  | .nil, fs, q, _ => by simp [diffEntries, leavesEntries]
  | .cons k rv rest', fs, q, hsub => by
      have hk : lookupJ k fs = some rv := (hsub k rv (Or.inl ⟨rfl, rfl⟩)).1
      have hw : wfJson rv = true := (hsub k rv (Or.inl ⟨rfl, rfl⟩)).2
      simp [diffEntries, leavesEntries, hk, diffJ_self rv (q ++ [k]) hw,
        diffEntries_self rest' fs q (fun a b hm => hsub a b (Or.inr hm))]
end

/-! Well-formedness of serialized snapshots. -/

theorem wf_serNode (n : GeometryNode) : wfJson (serNode n) = true := by
  cases n <;>
    simp [serNode, serPoint3Fields, wfJson, wfEntries, nodupKeysB, lookupJ]

theorem lookupJ_objOfNodes_isSome (u : Uuid) :
    ∀ l : List (Uuid × GeometryNode),
      (lookupJ (.id u) (objOfNodes l)).isSome = true ↔ u ∈ l.map Prod.fst
  | [] => by simp [objOfNodes, lookupJ]
  | (k, n) :: rest => by
      by_cases h : u = k <;>
        simp [objOfNodes, lookupJ, h, lookupJ_objOfNodes_isSome u rest]

theorem nodupKeysB_objOfNodes :
    ∀ l : List (Uuid × GeometryNode), (l.map Prod.fst).Nodup →
      nodupKeysB (objOfNodes l) = true
  | [] => by simp [objOfNodes, nodupKeysB]
  | (k, n) :: rest => by
      intro hn
      rw [List.map_cons, List.nodup_cons] at hn
      have hl : ¬(lookupJ (.id k) (objOfNodes rest)).isSome = true := by
        rw [lookupJ_objOfNodes_isSome]
        exact hn.1
      rw [Bool.not_eq_true] at hl
      simp [objOfNodes, nodupKeysB, hl, nodupKeysB_objOfNodes rest hn.2]

theorem wfEntries_objOfNodes :
    ∀ l : List (Uuid × GeometryNode), wfEntries (objOfNodes l) = true
  | [] => by simp [objOfNodes, wfEntries]
  | (k, n) :: rest => by
      simp [objOfNodes, wfEntries, wf_serNode, wfEntries_objOfNodes rest]

theorem sortNodes_perm (l : List (Uuid × GeometryNode)) :
    List.Perm (sortNodes l) l :=
  List.perm_insertionSort _ l

theorem wf_serializeCollection (c : NodeCollection) (h : NodupKeys c) :
    wfJson (serializeCollection c) = true := by
  have hperm : List.Perm ((sortNodes c.nodes).map Prod.fst) (c.nodes.map Prod.fst) :=
    (sortNodes_perm c.nodes).map Prod.fst
  have hn : ((sortNodes c.nodes).map Prod.fst).Nodup := hperm.nodup_iff.mpr h
  simp [serializeCollection, wfJson, nodupKeysB_objOfNodes _ hn,
    wfEntries_objOfNodes]

/-- C5: diffing a serialized snapshot against itself yields exactly the
Unchanged leaf records of the snapshot, one per leaf in traversal order;
in particular every record is an Unchanged record at a leaf and there is
no Added, Removed or Modified record. -/
theorem diff_snapshot_self (c : NodeCollection) (h : NodupKeys c) :
    diffJ [] (serializeCollection c) (serializeCollection c)
      = (leaves [] (serializeCollection c)).map (fun e => Change.unchanged e.1 e.2) ∧
    ∀ r ∈ diffJ [] (serializeCollection c) (serializeCollection c),
      ∃ q v, r = Change.unchanged q v ∧ isLeaf v = true := by
  have h1 := diffJ_self (serializeCollection c) [] (wf_serializeCollection c h)
  refine ⟨h1, ?_⟩
  intro r hr
  rw [h1] at hr
  simp at hr
  obtain ⟨a, b, hmem, hrb⟩ := hr
  exact ⟨a, b, hrb.symm, leaves_isLeaf _ [] (a, b) hmem⟩

/-- Witness for C5 at the serialized demo collection of `main`. -/
theorem diff_snapshot_self_witness :
    diffJ [] (serializeCollection mainNodes) (serializeCollection mainNodes)
      = (leaves [] (serializeCollection mainNodes)).map (fun e => Change.unchanged e.1 e.2) ∧
    ∀ r ∈ diffJ [] (serializeCollection mainNodes) (serializeCollection mainNodes),
      ∃ q v, r = Change.unchanged q v ∧ isLeaf v = true :=
  diff_snapshot_self mainNodes (by decide)

/-! Round-trip of serialization and deserialization. -/

theorem deserNode_serNode (n : GeometryNode) : deserNode (serNode n) = .ok n := by
  cases n <;> rfl

theorem deserEntries_objOfNodes :
    ∀ l : List (Uuid × GeometryNode), deserEntries (objOfNodes l) = .ok l
  | [] => rfl
  | (k, n) :: rest => by
      simp [objOfNodes, deserEntries, deserEntry, deserNode_serNode n,
        deserEntries_objOfNodes rest, Except.map]

/-- C1: deserializing the result of serializing a collection succeeds and
yields a collection holding exactly the same entries — the same set of
identifiers and, for each identifier, the same concrete node with the same
field values (the snapshot stores entries in canonical key order, so the
reconstructed entry list is a permutation of the original). -/
theorem serialize_roundtrip (c : NodeCollection) :
    ∃ c', deserializeCollection (serializeCollection c) = .ok c' ∧
      List.Perm c'.nodes c.nodes ∧
      ∀ (u : Uuid) (n : GeometryNode), (u, n) ∈ c'.nodes ↔ (u, n) ∈ c.nodes := by
  refine ⟨⟨sortNodes c.nodes⟩, ?_, sortNodes_perm c.nodes, ?_⟩
  · simp [serializeCollection, deserializeCollection, deserEntries_objOfNodes,
      Except.map]
  · intro u n
    exact (sortNodes_perm c.nodes).mem_iff

/-! Canonical snapshots: sorting makes serialization a function of the
collection's contents alone. -/

theorem sortNodes_sorted (l : List (Uuid × GeometryNode)) :
    List.Sorted (fun a b : Uuid × GeometryNode => a.1 ≤ b.1) (sortNodes l) :=
  List.sorted_insertionSort _ l

theorem sortNodes_eq_of_perm (l1 l2 : List (Uuid × GeometryNode))
    (hp : List.Perm l1 l2) (hn : (l1.map Prod.fst).Nodup) :
    sortNodes l1 = sortNodes l2 := by
  have hp' : List.Perm (sortNodes l1) (sortNodes l2) :=
    ((sortNodes_perm l1).trans hp).trans (sortNodes_perm l2).symm
  have hn1 : ((sortNodes l1).map Prod.fst).Nodup :=
    (((sortNodes_perm l1).map Prod.fst).nodup_iff).mpr hn
  have hn2 : ((sortNodes l2).map Prod.fst).Nodup :=
    ((hp'.map Prod.fst).nodup_iff).mp hn1
  have hne1 : (sortNodes l1).Pairwise (fun a b => a.1 ≠ b.1) :=
    List.pairwise_map.mp hn1
  have hne2 : (sortNodes l2).Pairwise (fun a b => a.1 ≠ b.1) :=
    List.pairwise_map.mp hn2
  have hlt1 : (sortNodes l1).Pairwise (fun a b : Uuid × GeometryNode => a.1 < b.1) :=
    ((sortNodes_sorted l1).and hne1).imp (fun h => lt_of_le_of_ne h.1 h.2)
  have hlt2 : (sortNodes l2).Pairwise (fun a b : Uuid × GeometryNode => a.1 < b.1) :=
    ((sortNodes_sorted l2).and hne2).imp (fun h => lt_of_le_of_ne h.1 h.2)
  exact List.eq_of_perm_of_sorted hp' hlt1 hlt2

/-- C9: diff results do not depend on insertion or iteration order: two
collections holding the same set of entries (in any list order, e.g. from
pushing the same nodes in different orders) serialize to the identical
canonical snapshot, so diffing either snapshot against any common snapshot
yields the same sequence of change records, in both diff directions. -/
theorem diff_independent_of_insertion_order (c1 c2 : NodeCollection) (s : Json)
    (hperm : List.Perm c1.nodes c2.nodes) (hnd : NodupKeys c1) :
    serializeCollection c1 = serializeCollection c2 ∧
    diffJ [] (serializeCollection c1) s = diffJ [] (serializeCollection c2) s ∧
    diffJ [] s (serializeCollection c1) = diffJ [] s (serializeCollection c2) := by
  have he : serializeCollection c1 = serializeCollection c2 := by
    simp [serializeCollection, sortNodes_eq_of_perm c1.nodes c2.nodes hperm hnd]
  exact ⟨he, by rw [he], by rw [he]⟩

/-- Witness for C9: the two orders of pushing a point (uuid 4) and a
rectangle (uuid 9) into the empty collection give collections with permuted
entry lists and identical snapshots and diffs. -/
theorem diff_independent_of_insertion_order_witness :
    serializeCollection ((NodeCollection.new.push (GeometryNode.point ⟨1, 2, 3, 4⟩)).push
        (GeometryNode.rect ⟨⟨0, 0, 0, 1⟩, 5, 6, 9⟩))
      = serializeCollection ((NodeCollection.new.push (GeometryNode.rect ⟨⟨0, 0, 0, 1⟩, 5, 6, 9⟩)).push
        (GeometryNode.point ⟨1, 2, 3, 4⟩)) ∧
    diffJ [] (serializeCollection ((NodeCollection.new.push (GeometryNode.point ⟨1, 2, 3, 4⟩)).push
        (GeometryNode.rect ⟨⟨0, 0, 0, 1⟩, 5, 6, 9⟩))) (Json.obj .nil)
      = diffJ [] (serializeCollection ((NodeCollection.new.push (GeometryNode.rect ⟨⟨0, 0, 0, 1⟩, 5, 6, 9⟩)).push
        (GeometryNode.point ⟨1, 2, 3, 4⟩))) (Json.obj .nil) ∧
    diffJ [] (Json.obj .nil) (serializeCollection ((NodeCollection.new.push (GeometryNode.point ⟨1, 2, 3, 4⟩)).push
        (GeometryNode.rect ⟨⟨0, 0, 0, 1⟩, 5, 6, 9⟩)))
      = diffJ [] (Json.obj .nil) (serializeCollection ((NodeCollection.new.push (GeometryNode.rect ⟨⟨0, 0, 0, 1⟩, 5, 6, 9⟩)).push
        (GeometryNode.point ⟨1, 2, 3, 4⟩))) :=
  diff_independent_of_insertion_order
    ((NodeCollection.new.push (GeometryNode.point ⟨1, 2, 3, 4⟩)).push
      (GeometryNode.rect ⟨⟨0, 0, 0, 1⟩, 5, 6, 9⟩))
    ((NodeCollection.new.push (GeometryNode.rect ⟨⟨0, 0, 0, 1⟩, 5, 6, 9⟩)).push
      (GeometryNode.point ⟨1, 2, 3, 4⟩))
    (Json.obj .nil) (by decide) (by decide)

/-! Whole-collection deserialization: all-or-nothing with the first error. -/

theorem deserEntries_spec :
    ∀ fs : JObj,
      (∀ e, deserEntries fs = .error e ↔ specFirstDeserializeError fs = some e) ∧
      (∀ ns, deserEntries fs = .ok ns →
        List.Forall₂ (fun (kv : JKey × Json) (p : Uuid × GeometryNode) =>
          deserEntry kv.1 kv.2 = .ok p) (toListJ fs) ns)
  | .nil => by
      constructor
      · intro e
        simp [deserEntries, specFirstDeserializeError]
      · intro ns h
        simp [deserEntries] at h
        simp [← h, toListJ]
  | .cons k v rest => by
      have ih := deserEntries_spec rest
      rcases h : deserEntry k v with e | p
      · constructor
        · intro e'
          simp [deserEntries, specFirstDeserializeError, h]
        · intro ns hn
          simp [deserEntries, h] at hn
      · constructor
        · intro e'
          rcases hr : deserEntries rest with e'' | ns'
          · have := (ih.1 e'').mp hr
            simp [deserEntries, specFirstDeserializeError, h, hr, Except.map, this]
          · have hsf : specFirstDeserializeError rest = none := by
              rcases hsf : specFirstDeserializeError rest with _ | e3
              · rfl
              · have := (ih.1 e3).mpr hsf
                rw [this] at hr
                exact absurd hr (by simp)
            simp [deserEntries, specFirstDeserializeError, h, hr, Except.map, hsf]
        · intro ns hn
          simp [deserEntries, h] at hn
          rcases hr : deserEntries rest with e'' | ns'
          · rw [hr] at hn; simp [Except.map] at hn
          · rw [hr] at hn; simp [Except.map] at hn
            rw [← hn, toListJ]
            exact List.Forall₂.cons h (ih.2 ns' hr)

/-- C7: whole-collection deserialization either reconstructs one concrete
node per snapshot entry (the result's entry list corresponds pointwise to
the snapshot's entries), dispatched by the `geometry_node` tag to the
correct concrete constructor, or fails the whole operation with exactly
the first encountered error; by the result type no partially deserialized
collection can be returned, and an unregistered tag fails with
`UnknownVariant` carrying that tag. -/
theorem deserialize_whole_or_first_error (fs : JObj) :
    (∀ e, deserializeCollection (Json.obj fs) = .error e ↔
        specFirstDeserializeError fs = some e) ∧
    (∀ c', deserializeCollection (Json.obj fs) = .ok c' →
        List.Forall₂ (fun (kv : JKey × Json) (p : Uuid × GeometryNode) =>
          deserEntry kv.1 kv.2 = .ok p) (toListJ fs) c'.nodes ∧
        c'.nodes.length = (toListJ fs).length) ∧
    (∀ (v : Json) (n : GeometryNode), deserNode v = .ok n →
        (tagOf v = some (Json.str "Point3") ∧ ∃ p, n = GeometryNode.point p) ∨
        (tagOf v = some (Json.str "Rectangle") ∧ ∃ r, n = GeometryNode.rect r)) ∧
    (∀ (gs : JObj) (t : String), lookupJ (.fld "geometry_node") gs = some (Json.str t) →
        t ≠ "Point3" → t ≠ "Rectangle" →
        deserNode (Json.obj gs) = .error (.unknownVariant t)) := by
  have hspec := deserEntries_spec fs
  refine ⟨?_, ?_, ?_, ?_⟩
  · intro e
    rcases hr : deserEntries fs with e'' | ns'
    · have := (hspec.1 e'').mp hr
      simp [deserializeCollection, hr, Except.map, this]
    · have hsf : specFirstDeserializeError fs = none := by
        rcases hsf : specFirstDeserializeError fs with _ | e3
        · rfl
        · have := (hspec.1 e3).mpr hsf
          rw [this] at hr
          exact absurd hr (by simp)
      simp [deserializeCollection, hr, Except.map, hsf]
  · intro c' hc
    rcases hr : deserEntries fs with e'' | ns'
    · simp [deserializeCollection, hr, Except.map] at hc
    · simp [deserializeCollection, hr, Except.map] at hc
      have hf := hspec.2 ns' hr
      rw [← hc]
      exact ⟨hf, hf.length_eq.symm⟩
  · intro v n h
    cases v with
    | num q => simp [deserNode] at h
    | str s => simp [deserNode] at h
    | uid u => simp [deserNode] at h
    | obj gs =>
        rw [deserNode] at h
        rcases ht : lookupJ (.fld "geometry_node") gs with _ | jv
        · rw [ht] at h; simp at h
        · rw [ht] at h
          cases jv with
          | num q => simp at h
          | uid u => simp at h
          | obj o => simp at h
          | str t =>
              by_cases h1 : t = "Point3"
              · subst h1
                left
                refine ⟨by simp [tagOf, ht], ?_⟩
                simp at h
                rcases hd : deserPoint3Fields gs with e | p
                · rw [hd] at h; simp [Except.map] at h
                · rw [hd] at h; simp [Except.map] at h
                  exact ⟨p, h.symm⟩
              · by_cases h2 : t = "Rectangle"
                · subst h2
                  right
                  refine ⟨by simp [tagOf, ht], ?_⟩
                  simp [h1] at h
                  rcases hd : deserRectangleFields gs with e | r
                  · rw [hd] at h; simp [Except.map] at h
                  · rw [hd] at h; simp [Except.map] at h
                    exact ⟨r, h.symm⟩
                · simp [h1, h2] at h
  · intro gs t ht h1 h2
    rw [deserNode, ht]
    simp [h1, h2]

/-- Witness for C7: a snapshot whose single entry carries the unregistered
tag `Circle` deserializes to exactly that `UnknownVariant` error. -/
theorem deserialize_whole_or_first_error_witness :
    deserializeCollection (Json.obj (.cons (.id 3)
        (.obj (.cons (.fld "geometry_node") (.str "Circle") .nil)) .nil))
      = .error (.unknownVariant "Circle") :=
  ((deserialize_whole_or_first_error (.cons (.id 3)
      (.obj (.cons (.fld "geometry_node") (.str "Circle") .nil)) .nil)).1
    (.unknownVariant "Circle")).mpr (by decide)

/-! A single leaf modification and its diff. -/

theorem lookupJ_setEntry_isSome (a k : JKey) (p : List JKey) (w : Json) :
    ∀ fs : JObj, (lookupJ a (setEntry fs k p w)).isSome = (lookupJ a fs).isSome
  | .nil => rfl
  | .cons k' v rest => by
      by_cases h : k = k'
      · rw [setEntry, if_pos h]
        by_cases ha : a = k' <;> simp [lookupJ, ha]
      · rw [setEntry, if_neg h]
        by_cases ha : a = k' <;>
          simp [lookupJ, ha, lookupJ_setEntry_isSome a k p w rest]

theorem path_ne_of_head_ne (q : List JKey) (k1 k2 : JKey) (s1 s2 : List JKey)
    (h : k1 ≠ k2) : q ++ (k1 :: s1) ≠ q ++ (k2 :: s2) := by
  intro he
  exact h (List.cons.inj (List.append_cancel_left he)).1

mutual
theorem diffJ_setPath :
    ∀ (j : Json) (p q : List JKey) (w v1 : Json),
      wfJson j = true → getPath j p = some v1 → isLeaf v1 = true →
      isLeaf w = true → v1 ≠ w →
      diffJ q j (setPath j p w)
        = (leaves q j).map (fun e =>
            if e.1 = q ++ p then Change.modified e.1 e.2 w
            else Change.unchanged e.1 e.2)
  | j, [], q, w, v1, _, hget, hl1, _, hne => by
      rw [getPath] at hget
      have hv : j = v1 := Option.some.inj hget
      subst hv
      cases j with
      | obj fs => simp [isLeaf] at hl1
      | num a => cases w <;> simp [setPath, diffJ, leaves, hne]
      | str s => cases w <;> simp [setPath, diffJ, leaves, hne]
      | uid u => cases w <;> simp [setPath, diffJ, leaves, hne]
  | .num a, k :: p', q, w, v1, _, hget, _, _, _ => by
      simp [getPath] at hget
  | .str s, k :: p', q, w, v1, _, hget, _, _, _ => by
      simp [getPath] at hget
  | .uid u, k :: p', q, w, v1, _, hget, _, _, _ => by
      simp [getPath] at hget
  | .obj fs, k :: p', q, w, v1, hwf, hget, hl1, hlw, hne => by
      rw [getPath] at hget
      rcases hk : lookupJ k fs with _ | v
      · rw [hk] at hget; simp at hget
      · rw [hk] at hget
        have hwf' : (nodupKeysB fs && wfEntries fs) = true := hwf
        rw [Bool.and_eq_true] at hwf'
        have hsub : ∀ a b, EntryMem a b fs → lookupJ a fs = some b ∧ wfJson b = true :=
          fun a b hm =>
            ⟨nodup_entryMem_lookupJ a b fs hwf'.1 hm,
             wfEntries_entryMem a b fs hwf'.2 hm⟩
        have hrem : removedEntries q (setEntry fs k p' w) fs = [] :=
          removedEntries_eq_nil fs q _ (fun a b hm => by
            rw [lookupJ_setEntry_isSome]
            exact entryMem_lookupJ_isSome a b fs hm)
        have hmain := diffEntries_setPath fs fs k p' q w v v1 hsub hwf'.1 hk hget hl1 hlw hne
        simp [diffJ, setPath, leaves, hrem, hmain]

theorem diffEntries_setPath :
    ∀ (rest fs : JObj) (k : JKey) (p' q : List JKey) (w v v1 : Json),
      (∀ a b, EntryMem a b rest → lookupJ a fs = some b ∧ wfJson b = true) →
      nodupKeysB rest = true →
      lookupJ k rest = some v →
      getPath v p' = some v1 → isLeaf v1 = true → isLeaf w = true → v1 ≠ w →
      diffEntries q fs (setEntry rest k p' w)
        = (leavesEntries q rest).map (fun e =>
            if e.1 = q ++ (k :: p') then Change.modified e.1 e.2 w
            else Change.unchanged e.1 e.2)
  | .nil, fs, k, p', q, w, v, v1, _, _, hk, _, _, _, _ => by
      rw [lookupJ] at hk; exact absurd hk (by simp)
  | .cons k' v' rest', fs, k, p', q, w, v, v1, hsub, hnd, hk, hget, hl1, hlw, hne => by
      have hk'fs : lookupJ k' fs = some v' := (hsub k' v' (Or.inl ⟨rfl, rfl⟩)).1
      have hw' : wfJson v' = true := (hsub k' v' (Or.inl ⟨rfl, rfl⟩)).2
      have hnd' : (!(lookupJ k' rest').isSome && nodupKeysB rest') = true := hnd
      rw [Bool.and_eq_true] at hnd'
      by_cases h : k = k'
      · cases h
        rw [lookupJ, if_pos rfl] at hk
        have hv : v' = v := Option.some.inj hk
        cases hv
        have hrec := diffJ_setPath v' p' (q ++ [k']) w v1 hw' hget hl1 hlw hne
        have hself := diffEntries_self rest' fs q (fun a b hm => hsub a b (Or.inr hm))
        have hsecond : (leavesEntries q rest').map (fun e => Change.unchanged e.1 e.2)
            = (leavesEntries q rest').map (fun e =>
                if e.1 = q ++ (k' :: p') then Change.modified e.1 e.2 w
                else Change.unchanged e.1 e.2) := by
          apply List.map_congr_left
          intro a ha
          obtain ⟨k2, suf, ha1, ha2⟩ := leavesEntries_path_shape rest' q a ha
          have hcond : ¬(a.1 = q ++ (k' :: p')) := by
            rw [ha1]
            apply path_ne_of_head_ne
            intro hkk
            rw [hkk] at ha2
            rw [ha2] at hnd'
            simp at hnd'
          exact (if_neg hcond).symm
        rw [setEntry, if_pos rfl, diffEntries, leavesEntries, List.map_append]
        simp only [hk'fs]
        rw [hrec, hself, ← hsecond]
        simp only [List.append_assoc, List.singleton_append]
      · rw [lookupJ, if_neg h] at hk
        have hself := diffJ_self v' (q ++ [k']) hw'
        have hrec := diffEntries_setPath rest' fs k p' q w v v1
          (fun a b hm => hsub a b (Or.inr hm)) hnd'.2 hk hget hl1 hlw hne
        have hfirst : (leaves (q ++ [k']) v').map (fun e => Change.unchanged e.1 e.2)
            = (leaves (q ++ [k']) v').map (fun e =>
                if e.1 = q ++ (k :: p') then Change.modified e.1 e.2 w
                else Change.unchanged e.1 e.2) := by
          apply List.map_congr_left
          intro a ha
          obtain ⟨suf, ha1⟩ := leaves_path_shape v' (q ++ [k']) a ha
          have hcond : ¬(a.1 = q ++ (k :: p')) := by
            rw [ha1, List.append_assoc, List.singleton_append]
            apply path_ne_of_head_ne
            exact fun hkk => h hkk.symm
          exact (if_neg hcond).symm
        rw [setEntry, if_neg h, diffEntries, leavesEntries, List.map_append]
        simp only [hk'fs]
        rw [hself, hrec, ← hfirst]
end

mutual
theorem leaves_paths_nodup :
    ∀ (j : Json) (q : List JKey), wfJson j = true →
      ((leaves q j).map Prod.fst).Nodup
  | .num a, q, _ => by simp [leaves]
  | .str s, q, _ => by simp [leaves]
  | .uid u, q, _ => by simp [leaves]
  | .obj fs, q, h => by
      have h' : (nodupKeysB fs && wfEntries fs) = true := h
      rw [Bool.and_eq_true] at h'
      rw [leaves]
      exact leavesEntries_paths_nodup fs q h'.1 h'.2

theorem leavesEntries_paths_nodup :
    ∀ (fs : JObj) (q : List JKey), nodupKeysB fs = true → wfEntries fs = true →
      ((leavesEntries q fs).map Prod.fst).Nodup
  | .nil, q, _, _ => by simp [leavesEntries]
  | .cons k v rest, q, hn, hw => by
      have hn' : (!(lookupJ k rest).isSome && nodupKeysB rest) = true := hn
      rw [Bool.and_eq_true] at hn'
      have hw' : (wfJson v && wfEntries rest) = true := hw
      rw [Bool.and_eq_true] at hw'
      have h1 := leaves_paths_nodup v (q ++ [k]) hw'.1
      have h2 := leavesEntries_paths_nodup rest q hn'.2 hw'.2
      rw [leavesEntries, List.map_append, List.nodup_append]
      refine ⟨h1, h2, ?_⟩
      intro a ha hb
      rw [List.mem_map] at ha hb
      obtain ⟨e1, he1, he1a⟩ := ha
      obtain ⟨e2, he2, he2a⟩ := hb
      obtain ⟨s1, hs1⟩ := leaves_path_shape v (q ++ [k]) e1 he1
      obtain ⟨k2, s2, hs2, hk2⟩ := leavesEntries_path_shape rest q e2 he2
      have : e1.1 = e2.1 := by rw [he1a, he2a]
      rw [hs1, hs2, List.append_assoc, List.singleton_append] at this
      have hkk : k = k2 := (List.cons.inj (List.append_cancel_left this)).1
      rw [← hkk] at hk2
      rw [hk2] at hn'
      simp at hn'
end

theorem leavesEntries_mem_of_entry (k : JKey) (v : Json) (q : List JKey)
    (x : List JKey × Json) :
    ∀ fs : JObj, EntryMem k v fs → x ∈ leaves (q ++ [k]) v →
      x ∈ leavesEntries q fs
  | .nil => fun h => (h : False).elim
  | .cons k' v' rest => by
      intro hm hx
      have hm' : (k = k' ∧ v = v') ∨ EntryMem k v rest := hm
      rw [leavesEntries, List.mem_append]
      rcases hm' with ⟨hk, hv⟩ | hm'
      · rw [← hk, ← hv]
        exact Or.inl hx
      · exact Or.inr (leavesEntries_mem_of_entry k v q x rest hm' hx)

theorem getPath_mem_leaves :
    ∀ (p : List JKey) (j : Json) (q : List JKey) (v : Json),
      getPath j p = some v → isLeaf v = true → (q ++ p, v) ∈ leaves q j
  | [], j, q, v, hget, hl => by
      rw [getPath] at hget
      have := Option.some.inj hget
      subst this
      cases j with
      | obj fs => simp [isLeaf] at hl
      | num a => simp [leaves]
      | str s => simp [leaves]
      | uid u => simp [leaves]
  | k :: p', .num a, q, v, hget, _ => by simp [getPath] at hget
  | k :: p', .str s, q, v, hget, _ => by simp [getPath] at hget
  | k :: p', .uid u, q, v, hget, _ => by simp [getPath] at hget
  | k :: p', .obj fs, q, v, hget, hl => by
      rw [getPath] at hget
      rcases hk : lookupJ k fs with _ | v0
      · rw [hk] at hget; simp at hget
      · rw [hk] at hget
        have ih := getPath_mem_leaves p' v0 (q ++ [k]) v hget hl
        have hmem := lookupJ_entryMem k v0 fs hk
        have := leavesEntries_mem_of_entry k v0 q _ fs hmem ih
        rw [leaves]
        have harr : (q ++ [k]) ++ p' = q ++ (k :: p') := by
          rw [List.append_assoc, List.singleton_append]
        rw [harr] at this
        exact this

theorem countP_modified_map_zero (tgt : List JKey) (w : Json) :
    ∀ L : List (List JKey × Json), tgt ∉ L.map Prod.fst →
      ((L.map (fun e => if e.1 = tgt then Change.modified e.1 e.2 w
          else Change.unchanged e.1 e.2)).countP Change.isModified) = 0
  | [] => by simp
  | e :: L => by
      intro h
      rw [List.map_cons, List.mem_cons] at h
      push_neg at h
      have hne : ¬(e.1 = tgt) := fun hh => h.1 hh.symm
      simp [hne, List.countP_cons, Change.isModified,
        countP_modified_map_zero tgt w L h.2]

theorem countP_modified_map_one (tgt : List JKey) (w : Json) :
    ∀ L : List (List JKey × Json), (L.map Prod.fst).Nodup → tgt ∈ L.map Prod.fst →
      ((L.map (fun e => if e.1 = tgt then Change.modified e.1 e.2 w
          else Change.unchanged e.1 e.2)).countP Change.isModified) = 1
  | [] => by simp
  | e :: L => by
      intro hnd hm
      rw [List.map_cons, List.nodup_cons] at hnd
      rw [List.map_cons, List.mem_cons] at hm
      by_cases h : e.1 = tgt
      · have hnot : tgt ∉ L.map Prod.fst := by rw [← h]; exact hnd.1
        simp [h, List.countP_cons, Change.isModified,
          countP_modified_map_zero tgt w L hnot]
      · have hm' : tgt ∈ L.map Prod.fst := by
          rcases hm with hm | hm
          · exact absurd hm.symm h
          · exact hm
        simp [h, List.countP_cons, Change.isModified,
          countP_modified_map_one tgt w L hnd.2 hm']

/-- C6: if the before and after snapshots differ exactly in that the leaf
field `f` of node `i` changed (the after snapshot is the before snapshot
with the leaf at path (`i`, `f`) replaced by a different leaf value `w`),
then the diff is the leaf list of the before snapshot mapped to records
that are Unchanged everywhere except at path (`i`, `f`): it contains the
Modified record at (`i`, `f`) with old `v1` and new `w`, contains exactly
one Modified record, and contains an Unchanged record for every other
leaf. -/
theorem diff_single_leaf_modification (c : NodeCollection) (i : Uuid) (f : String)
    (v1 w : Json) (hnd : NodupKeys c)
    (hget : getPath (serializeCollection c) [JKey.id i, JKey.fld f] = some v1)
    (hl1 : isLeaf v1 = true) (hlw : isLeaf w = true) (hne : v1 ≠ w) :
    diffJ [] (serializeCollection c)
        (setPath (serializeCollection c) [JKey.id i, JKey.fld f] w)
      = (leaves [] (serializeCollection c)).map (fun e =>
          if e.1 = [JKey.id i, JKey.fld f] then Change.modified e.1 e.2 w
          else Change.unchanged e.1 e.2) ∧
    Change.modified [JKey.id i, JKey.fld f] v1 w
      ∈ diffJ [] (serializeCollection c)
          (setPath (serializeCollection c) [JKey.id i, JKey.fld f] w) ∧
    (diffJ [] (serializeCollection c)
        (setPath (serializeCollection c) [JKey.id i, JKey.fld f] w)).countP
      Change.isModified = 1 ∧
    ∀ e ∈ leaves [] (serializeCollection c), e.1 ≠ [JKey.id i, JKey.fld f] →
      Change.unchanged e.1 e.2
        ∈ diffJ [] (serializeCollection c)
            (setPath (serializeCollection c) [JKey.id i, JKey.fld f] w) := by
  have hwf := wf_serializeCollection c hnd
  have heq := diffJ_setPath (serializeCollection c) [JKey.id i, JKey.fld f] []
    w v1 hwf hget hl1 hlw hne
  rw [List.nil_append] at heq
  have hmem : ([JKey.id i, JKey.fld f], v1) ∈ leaves [] (serializeCollection c) := by
    have := getPath_mem_leaves [JKey.id i, JKey.fld f] (serializeCollection c) [] v1
      hget hl1
    simpa using this
  refine ⟨heq, ?_, ?_, ?_⟩
  · rw [heq, List.mem_map]
    exact ⟨([JKey.id i, JKey.fld f], v1), hmem, by simp⟩
  · rw [heq]
    apply countP_modified_map_one [JKey.id i, JKey.fld f] w
      (leaves [] (serializeCollection c))
      (leaves_paths_nodup (serializeCollection c) [] hwf)
    rw [List.mem_map]
    exact ⟨([JKey.id i, JKey.fld f], v1), hmem, rfl⟩
  · intro e he hne'
    rw [heq, List.mem_map]
    exact ⟨e, he, by simp [hne']⟩

/-- Witness for C6: in the demo collection, changing the point's `x` leaf
from 0 to 50 (as `main` does after deserialization) yields the mapped
record list with its Modified record at (`ptId`, `x`), exactly one Modified
record, and Unchanged records at every other leaf. -/
theorem diff_single_leaf_modification_witness :
    diffJ [] (serializeCollection mainNodes)
        (setPath (serializeCollection mainNodes) [JKey.id ptId, JKey.fld "x"] (Json.num 50))
      = (leaves [] (serializeCollection mainNodes)).map (fun e =>
          if e.1 = [JKey.id ptId, JKey.fld "x"] then Change.modified e.1 e.2 (Json.num 50)
          else Change.unchanged e.1 e.2) ∧
    Change.modified [JKey.id ptId, JKey.fld "x"] (Json.num 0) (Json.num 50)
      ∈ diffJ [] (serializeCollection mainNodes)
          (setPath (serializeCollection mainNodes) [JKey.id ptId, JKey.fld "x"] (Json.num 50)) ∧
    (diffJ [] (serializeCollection mainNodes)
        (setPath (serializeCollection mainNodes) [JKey.id ptId, JKey.fld "x"] (Json.num 50))).countP
      Change.isModified = 1 ∧
    ∀ e ∈ leaves [] (serializeCollection mainNodes), e.1 ≠ [JKey.id ptId, JKey.fld "x"] →
      Change.unchanged e.1 e.2
        ∈ diffJ [] (serializeCollection mainNodes)
            (setPath (serializeCollection mainNodes) [JKey.id ptId, JKey.fld "x"] (Json.num 50)) :=
  diff_single_leaf_modification mainNodes ptId "x" (Json.num 0) (Json.num 50)
    (by decide) (by decide) (by decide) (by decide) (by decide)
